import Mathlib

/-!
Verification development for the `musictl` audio-library import pipeline.

The definitions below are a shallow embedding of the Python sources:
  * `src/musictl/cue_splitter.py` — CUE parsing, time-code conversion,
    audio splitting (`CueSplitter`);
  * `src/musictl/controller.py` — metadata resolution from filenames,
    the import log and the `import_tracks` pipeline;
  * `src/musictl/config.py` — the configuration accessors that exist.

Python strings are modelled as `List Char` (`Str`).  Python string
operations used by the code (`str.strip`, `str.split`, `str.startswith`,
slicing, f-string zero padding, `pathlib.Path.suffix`/`.name`) are given
explicit executable models.  `int(...)` on decimal-digit fields is modelled
by `pyNat?` (the code only ever meets non-negative fields on the paths
analysed here).  Filesystem and process effects are modelled as an explicit
event trace; external oracles (ffmpeg availability, per-invocation ffmpeg
exit status, tag-based metadata resolution, copy/delete success) are
parameters of the pipeline environment.
-/

namespace Musictl

/-- Python strings, modelled character by character. -/
abbrev Str := List Char

/-- Turn a Lean string literal into the model type. -/
def str (s : String) : Str := s.data

/-- ASCII whitespace recognised by Python's `str.strip()` / `str.split()`
(for the ASCII texts this development evaluates). -/
def isPyWs (c : Char) : Bool :=
  c = ' ' || c = '\t' || c = '\n' || c = '\r' || c = '\x0b' || c = '\x0c'

/-- Python `str.strip()` (both ends, whitespace). -/
def chStrip (cs : Str) : Str :=
  ((cs.dropWhile isPyWs).reverse.dropWhile isPyWs).reverse

/-- Python `str.strip(set)` (both ends, characters drawn from `set`). -/
def chStripChars (set : Str) (cs : Str) : Str :=
  ((cs.dropWhile (set.contains ·)).reverse.dropWhile (set.contains ·)).reverse

/-- Python `str.split(sep)` for a one-character separator. -/
def chSplitChar (sep : Char) : Str → List Str
  | [] => [[]]
  | c :: cs =>
    if c = sep then [] :: chSplitChar sep cs
    else
      match chSplitChar sep cs with
      | [] => [[c]]
      | a :: rest => (c :: a) :: rest

/-- Split at the first occurrence of `sep` (Python `str.split(sep, 1)`
when it finds a separator); `none` when `sep` does not occur. -/
def chSplitFirst (sep : Str) : Str → Option (Str × Str)
  | [] => none
  | c :: cs =>
    if sep.isPrefixOf (c :: cs) then some ([], (c :: cs).drop sep.length)
    else
      match chSplitFirst sep cs with
      | some (a, b) => some (c :: a, b)
      | none => none

/-- Python `sep in s`. -/
def chHasSub (sep cs : Str) : Bool := (chSplitFirst sep cs).isSome

/-- Auxiliary for `chSplitWs`: current word accumulated in reverse. -/
def chSplitWsAux : Str → Str → List Str
  | [], cur => if cur = [] then [] else [cur.reverse]
  | c :: cs, cur =>
    if isPyWs c then
      if cur = [] then chSplitWsAux cs [] else cur.reverse :: chSplitWsAux cs []
    else chSplitWsAux cs (c :: cur)

/-- Python `str.split()` (no argument): whitespace runs, empties dropped. -/
def chSplitWs (cs : Str) : List Str := chSplitWsAux cs []

/-- Python `int(s)` restricted to non-negative all-digit fields; `none`
models the `ValueError` raised on anything else. -/
def pyNat? (cs : Str) : Option Nat :=
  if cs ≠ [] ∧ cs.all (·.isDigit) then
    some (cs.foldl (fun a c => a * 10 + (c.toNat - 48)) 0)
  else none

/-- Decimal digit character. -/
def digitChar (n : Nat) : Char := Char.ofNat (48 + n)

/-- Decimal rendering of a natural number (fuelled recursion). -/
def natToCharsAux : Nat → Nat → Str
  | 0, _ => []
  | fuel + 1, n =>
    if n < 10 then [digitChar n]
    else natToCharsAux fuel (n / 10) ++ [digitChar (n % 10)]

/-- Decimal rendering of a natural number, Python `str(n)` for `n ≥ 0`. -/
def natToChars (n : Nat) : Str := natToCharsAux (n + 1) n

/-- Python f-string `{n:0wd}`: zero-pad the decimal rendering to at least
`w` characters. -/
def padNum (w : Nat) (n : Nat) : Str :=
  let s := natToChars n
  List.replicate (w - s.length) '0' ++ s

/-- Python `str.lower()` (ASCII). -/
def chLower (cs : Str) : Str := cs.map Char.toLower

/-- `pathlib.Path.name`: the component after the last `/`. -/
def basename (p : Str) : Str := (chSplitChar '/' p).getLastD p

/-- `pathlib.Path.suffix`: the extension of the final component, nonempty
exactly when the last dot is neither the first nor the last character. -/
def pySuffix (p : Str) : Str :=
  let name := basename p
  match ((List.range name.length).filter
      (fun i => name.getD i ' ' = '.')).getLast? with
  | some i => if 0 < i ∧ i + 1 < name.length then name.drop i else []
  | none => []

/-! ## TimeCode conversion — `CueSplitter._convert_time` (cue_splitter.py 190–202)

`cue_time.split(':')`; when exactly three fields, each is passed through
`int`, `milliseconds = int((frames / 75) * 1000)` (float truncation, which
for `frames ≥ 0` coincides with natural floor division `frames*1000/75`),
`total_seconds = minutes*60 + seconds`, and the result is rendered as
`HH:MM:SS.mmm` with two/three digit zero padding; otherwise the input is
returned unchanged.  A field that `int` rejects raises in Python, modelled
as `none`. -/

/-- Render `HH:MM:SS.mmm` the way the f-string on line 201 does. -/
def renderExt (hours minutes seconds milliseconds : Nat) : Str :=
  padNum 2 hours ++ [':'] ++ padNum 2 minutes ++ [':'] ++ padNum 2 seconds
    ++ ['.'] ++ padNum 3 milliseconds

/-- `CueSplitter._convert_time`. -/
def convert_time (cueTime : Str) : Option Str :=
  match chSplitChar ':' cueTime with
  | [a, b, c] =>
    match pyNat? a, pyNat? b, pyNat? c with
    | some minutes, some seconds, some frames =>
      let milliseconds := frames * 1000 / 75
      let totalSeconds := minutes * 60 + seconds
      some (renderExt (totalSeconds / 3600) (totalSeconds % 3600 / 60)
        (totalSeconds % 60) milliseconds)
    | _, _, _ => none
  | _ => some cueTime

end Musictl

namespace Musictl

/-- The total milliseconds denoted by a rendered `HH:MM:SS.mmm` value. -/
def extTotalMs (hours minutes seconds milliseconds : Nat) : Nat :=
  (hours * 3600 + minutes * 60 + seconds) * 1000 + milliseconds

/-- Claim C2, counterexample: at `"00:00:02"` the code produces fractional
part `026`, yet `round(2/75*1000) = 27`; the conversion truncates rather
than rounds. -/
theorem c2_counterexample :
    convert_time (str "00:00:02") = some (str "00:00:00.026") ∧
    round ((2 : ℚ) / 75 * 1000) = (27 : ℤ) ∧ (26 : ℤ) ≠ 27 := by
  refine ⟨by decide, ?_, by decide⟩
  norm_num [round_eq]

/-- Claim C2 as amended: for every time-code string `"MM:SS:FF"` whose three
colon-separated fields are integer-parsable and whose frame field lies in
`[0,74]`, the conversion yields a zero-padded `HH:MM:SS.mmm` string with
in-range minute/second/millisecond fields whose total milliseconds equal
`(MM*60+SS)*1000 + ⌊FF*1000/75⌋` — the truncated, not rounded,
frame-to-millisecond conversion. -/
theorem c2_convert_time_truncates (ct a b c : Str) (m s f : Nat)
    (hsplit : chSplitChar ':' ct = [a, b, c])
    (ha : pyNat? a = some m) (hb : pyNat? b = some s)
    (hc : pyNat? c = some f) (hf : f ≤ 74) :
    ∃ H M S ms, convert_time ct = some (renderExt H M S ms) ∧
      M < 60 ∧ S < 60 ∧ ms < 1000 ∧
      extTotalMs H M S ms = (m * 60 + s) * 1000 + f * 1000 / 75 := by
  refine ⟨(m * 60 + s) / 3600, (m * 60 + s) % 3600 / 60, (m * 60 + s) % 60,
    f * 1000 / 75, ?_, ?_, ?_, ?_, ?_⟩
  · simp [convert_time, hsplit, ha, hb, hc]
  · omega
  · omega
  · omega
  · unfold extTotalMs
    omega

/-- Witness for `c2_convert_time_truncates` at the concrete input
`"02:03:04"`. -/
theorem c2_convert_time_truncates_witness :
    ∃ H M S ms, convert_time (str "02:03:04") = some (renderExt H M S ms) ∧
      M < 60 ∧ S < 60 ∧ ms < 1000 ∧
      extTotalMs H M S ms = (2 * 60 + 3) * 1000 + 4 * 1000 / 75 :=
  c2_convert_time_truncates (str "02:03:04") (str "02") (str "03") (str "04")
    2 3 4 (by decide) (by decide) (by decide) (by decide) (by decide)

end Musictl

namespace Musictl

/-! ## CUE parsing — `CueSplitter.parse_cue` (cue_splitter.py 59–141)

The encoding ladder (utf-8, cp1251, latin1) is granted total as the spec
assumes; the model therefore takes the decoded text.  The subsequent
`if not content:` check raises `ValueError` exactly when the decoded text
is empty, and `int(track_parts[1])` raises when a `TRACK` line's number
field is not an integer; both are modelled as `Except.error`. -/

def unknownAlbum : Str := str "Unknown Album"

def unknownArtist : Str := str "Unknown Artist"

/-- A track dict as assembled by the second loop (lines 96–122). -/
structure RawTrack where
  number : Nat
  title : Str
  performer : Str
  start_time : Str
  deriving DecidableEq, Repr

/-- A `CueTrack` object (cue_splitter.py 8–20). -/
structure CueTrack where
  number : Nat
  title : Str
  performer : Str
  start_time : Str
  end_time : Option Str
  album : Str
  deriving DecidableEq, Repr

/-- First loop of `parse_cue` (lines 80–87): scan for album title and
artist, stopping at the first `TRACK ` line; a `TITLE `/`PERFORMER ` line
is consumed only while the corresponding variable still holds its
`"Unknown ..."` sentinel. -/
def albumScan : List Str → Str × Str → Str × Str
  | [], st => st
  | l :: ls, (album, artist) =>
    let line := chStrip l
    if (str "TRACK ").isPrefixOf line then (album, artist)
    else if (str "TITLE ").isPrefixOf line ∧ album = unknownAlbum then
      albumScan ls (chStripChars (str "\"") (line.drop 6), artist)
    else if (str "PERFORMER ").isPrefixOf line ∧ artist = unknownArtist then
      albumScan ls (album, chStripChars (str "\"") (line.drop 10))
    else albumScan ls (album, artist)

/-- `track_parts[1]` (cue_splitter.py line 103). -/
def secondWord (ws : List Str) : Str := ws.getD 1 []

/-- Second loop of `parse_cue` (lines 90–122): build the raw track list.
`cur` is `current_track`; a `TRACK ` line appends the previous track and
opens a new one whose number must parse as an integer. -/
def trackLoop (artist : Str) : List Str → Option RawTrack →
    Except Str (List RawTrack)
  | [], cur => .ok cur.toList
  | l :: ls, cur =>
    let line := chStrip l
    if (str "TRACK ").isPrefixOf line then
      match pyNat? (secondWord (chSplitWs line)) with
      | none => .error (str "invalid literal for int")
      | some n =>
        match trackLoop artist ls
            (some ⟨n, str "Track " ++ natToChars n, artist, str "00:00:00"⟩) with
        | .error e => .error e
        | .ok rest => .ok (cur.toList ++ rest)
    else if cur.isSome ∧ (str "TITLE ").isPrefixOf line then
      trackLoop artist ls
        (cur.map fun t => { t with title := chStripChars (str "\"") (line.drop 6) })
    else if cur.isSome ∧ (str "PERFORMER ").isPrefixOf line then
      trackLoop artist ls
        (cur.map fun t => { t with performer := chStripChars (str "\"") (line.drop 10) })
    else if cur.isSome ∧ (str "INDEX 01 ").isPrefixOf line then
      trackLoop artist ls
        (cur.map fun t => { t with start_time := chStrip (line.drop 9) })
    else trackLoop artist ls cur

/-- Conversion to `CueTrack` objects (lines 124–139): each track's
`end_time` is the next track's `start_time`; the last has none. -/
def linkTracks (album : Str) (raw : List RawTrack) : List CueTrack :=
  raw.zipWith (fun t e => ⟨t.number, t.title, t.performer, t.start_time, e, album⟩)
    ((raw.drop 1).map (fun t => some t.start_time) ++ [none])

/-- `CueSplitter.parse_cue` on the decoded text; returns
`(artist, album, tracks)`. -/
def parse_cue (content : Str) : Except Str (Str × Str × List CueTrack) :=
  if content = [] then .error (str "Could not read CUE file with any encoding")
  else
    let lines := chSplitChar '\n' content
    let (album, artist) := albumScan lines (unknownAlbum, unknownArtist)
    match trackLoop artist lines none with
    | .error e => .error e
    | .ok raw => .ok (artist, album, linkTracks album raw)

/-! Spec-side characterisations used to state the parser claims. -/

/-- The stripped lines strictly before the first `TRACK ` line. -/
def preTrackLines (ls : List Str) : List Str :=
  (ls.map chStrip).takeWhile (fun line => !(str "TRACK ").isPrefixOf line)

/-- The album-title value carried by a stripped line, if it is a `TITLE `
line. -/
def titleValue? (line : Str) : Option Str :=
  if (str "TITLE ").isPrefixOf line then
    some (chStripChars (str "\"") (line.drop 6))
  else none

/-- The performer value carried by a stripped line, if it is a
`PERFORMER ` line. -/
def performerValue? (line : Str) : Option Str :=
  if (str "PERFORMER ").isPrefixOf line then
    some (chStripChars (str "\"") (line.drop 10))
  else none

/-- First value in the list that differs from the sentinel `default`,
or the sentinel when there is none. -/
def firstNonDefault (dflt : Str) (vals : List Str) : Str :=
  (vals.find? (fun v => decide (v ≠ dflt))).getD dflt

end Musictl

namespace Musictl

lemma title_not_performer {l : Str} (h : (str "TITLE ").isPrefixOf l = true) :
    ¬ (str "PERFORMER ").isPrefixOf l = true := by
  rcases l with _ | ⟨c, cs⟩
  · simp [str, List.isPrefixOf] at h
  · rw [show str "TITLE " = 'T' :: str "ITLE " from rfl] at h
    rw [show str "PERFORMER " = 'P' :: str "ERFORMER " from rfl]
    simp [List.isPrefixOf] at h ⊢
    intro hc
    rw [← hc] at h
    exact absurd h.1 (by decide)

lemma performer_not_title {l : Str} (h : (str "PERFORMER ").isPrefixOf l = true) :
    ¬ (str "TITLE ").isPrefixOf l = true := by
  intro h2
  exact title_not_performer h2 h

lemma firstNonDefault_cons (dflt v : Str) (ts : List Str) :
    firstNonDefault dflt (v :: ts) =
      if v = dflt then firstNonDefault dflt ts else v := by
  by_cases hv : v = dflt <;> simp [firstNonDefault, List.find?, hv]

/-- Generalised characterisation of the album/artist scan: starting from
any state, each component ends up at its start value when that value is
not the sentinel, and otherwise at the first non-sentinel value among the
`TITLE ` (resp. `PERFORMER `) lines before the first `TRACK ` line. -/
lemma albumScan_eq (ls : List Str) : ∀ a b,
    albumScan ls (a, b) =
      (if a = unknownAlbum then
        firstNonDefault unknownAlbum ((preTrackLines ls).filterMap titleValue?)
      else a,
       if b = unknownArtist then
        firstNonDefault unknownArtist ((preTrackLines ls).filterMap performerValue?)
      else b) := by
  induction ls with
  | nil =>
    intro a b
    rcases eq_or_ne a unknownAlbum with ha | ha <;>
      rcases eq_or_ne b unknownArtist with hb | hb <;>
        simp [albumScan, preTrackLines, firstNonDefault, ha, hb]
  | cons l ls ih =>
    intro a b
    by_cases hT : (str "TRACK ").isPrefixOf (chStrip l)
    · have hpre : preTrackLines (l :: ls) = [] := by
        simp [preTrackLines, hT]
      rw [show albumScan (l :: ls) (a, b) = (a, b) from by simp [albumScan, hT]]
      rcases eq_or_ne a unknownAlbum with ha | ha <;>
        rcases eq_or_ne b unknownArtist with hb | hb <;>
          simp [hpre, firstNonDefault, ha, hb]
    · have hpre : preTrackLines (l :: ls) = chStrip l :: preTrackLines ls := by
        simp [preTrackLines, hT]
      by_cases hTi : (str "TITLE ").isPrefixOf (chStrip l)
      · have hnp := title_not_performer hTi
        have htv : titleValue? (chStrip l) =
            some (chStripChars (str "\"") ((chStrip l).drop 6)) := by
          simp [titleValue?, hTi]
        have hpv : performerValue? (chStrip l) = none := by
          simp [performerValue?, hnp]
        by_cases ha : a = unknownAlbum
        · rw [show albumScan (l :: ls) (a, b) =
              albumScan ls (chStripChars (str "\"") ((chStrip l).drop 6), b) from by
            simp [albumScan, hT, hTi, ha]]
          rw [ih, hpre]
          simp only [List.filterMap_cons, htv, hpv, ha, if_pos rfl,
            firstNonDefault_cons]
          rcases eq_or_ne (chStripChars (str "\"") ((chStrip l).drop 6))
              unknownAlbum with hv | hv <;> simp [hv]
        · rw [show albumScan (l :: ls) (a, b) = albumScan ls (a, b) from by
            simp [albumScan, hT, hTi, ha, hnp]]
          rw [ih, hpre]
          simp [List.filterMap_cons, htv, hpv, ha]
      · by_cases hP : (str "PERFORMER ").isPrefixOf (chStrip l)
        · have htv : titleValue? (chStrip l) = none := by
            simp [titleValue?, hTi]
          have hpv : performerValue? (chStrip l) =
              some (chStripChars (str "\"") ((chStrip l).drop 10)) := by
            simp [performerValue?, hP]
          by_cases hb : b = unknownArtist
          · rw [show albumScan (l :: ls) (a, b) =
                albumScan ls (a, chStripChars (str "\"") ((chStrip l).drop 10)) from by
              simp [albumScan, hT, hTi, hP, hb]]
            rw [ih, hpre]
            simp only [List.filterMap_cons, htv, hpv, hb, if_pos rfl,
              firstNonDefault_cons]
            rcases eq_or_ne (chStripChars (str "\"") ((chStrip l).drop 10))
                unknownArtist with hv | hv <;> simp [hv]
          · rw [show albumScan (l :: ls) (a, b) = albumScan ls (a, b) from by
              simp [albumScan, hT, hTi, hP, hb]]
            rw [ih, hpre]
            simp [List.filterMap_cons, htv, hpv, hb]
        · have htv : titleValue? (chStrip l) = none := by
            simp [titleValue?, hTi]
          have hpv : performerValue? (chStrip l) = none := by
            simp [performerValue?, hP]
          rw [show albumScan (l :: ls) (a, b) = albumScan ls (a, b) from by
            simp [albumScan, hT, hTi, hP]]
          rw [ih, hpre]
          simp [List.filterMap_cons, htv, hpv]

end Musictl

namespace Musictl

/-- Pre-`TRACK` text whose first `TITLE` line carries exactly the sentinel
value `"Unknown Album"`. -/
def c9Text : Str :=
  str "TITLE \"Unknown Album\"\nTITLE \"B\"\nTRACK 01 AUDIO"

/-- Claim C9, counterexample: in a CUE text whose first pre-`TRACK`
`TITLE` line carries the value `"Unknown Album"`, the second pre-`TRACK`
`TITLE` line is *not* ignored: the album ends up `"B"`, not the first
line's value — first-wins is keyed on the sentinel value, not on
occurrence order. -/
theorem c9_counterexample :
    ((preTrackLines (chSplitChar '\n' c9Text)).filterMap titleValue?).head? =
      some unknownAlbum ∧
    (albumScan (chSplitChar '\n' c9Text) (unknownAlbum, unknownArtist)).1 =
      str "B" ∧
    str "B" ≠ unknownAlbum := by decide

/-- Claim C9 as amended: for every CUE text, the album title is the first
pre-`TRACK` `TITLE` value that differs from the sentinel `"Unknown Album"`
(the sentinel itself if none), and the album artist is likewise the first
pre-`TRACK` `PERFORMER` value differing from `"Unknown Artist"`; a
pre-`TRACK` line whose value equals the sentinel does not lock the field,
so later pre-`TRACK` lines can still set it. -/
theorem c9_album_scan_first_non_sentinel (content : Str) :
    albumScan (chSplitChar '\n' content) (unknownAlbum, unknownArtist) =
      (firstNonDefault unknownAlbum
        ((preTrackLines (chSplitChar '\n' content)).filterMap titleValue?),
       firstNonDefault unknownArtist
        ((preTrackLines (chSplitChar '\n' content)).filterMap performerValue?)) := by
  rw [albumScan_eq]
  simp

end Musictl

namespace Musictl

/-- The number of tracks produced by the second loop is the number of
`TRACK `-prefixed (stripped) lines, plus the pending track. -/
lemma trackLoop_length (artist : Str) : ∀ (ls : List Str) (cur : Option RawTrack)
    (raw : List RawTrack), trackLoop artist ls cur = .ok raw →
    raw.length = cur.toList.length +
      (ls.map chStrip).countP (fun line => (str "TRACK ").isPrefixOf line) := by
  intro ls
  induction ls with
  | nil =>
    intro cur raw h
    simp only [trackLoop, Except.ok.injEq] at h
    subst h
    simp
  | cons l ls ih =>
    intro cur raw h
    by_cases hT : (str "TRACK ").isPrefixOf (chStrip l)
    · cases hn : pyNat? (secondWord (chSplitWs (chStrip l))) with
      | none => simp [trackLoop, hT, hn] at h
      | some n =>
        cases hrec : trackLoop artist ls
            (some ⟨n, str "Track " ++ natToChars n, artist, str "00:00:00"⟩) with
        | error e => simp [trackLoop, hT, hn, hrec] at h
        | ok rest =>
          simp only [trackLoop] at h
          rw [if_pos hT, hn] at h
          simp only [hrec, Except.ok.injEq] at h
          have hlen := ih _ _ hrec
          simp only [Option.toList_some, List.length_cons, List.length_nil] at hlen
          subst h
          simp [List.countP_cons, hT, hlen]
          omega
    · have key : ∀ (cur' : Option RawTrack),
          cur'.toList.length = cur.toList.length →
          trackLoop artist ls cur' = .ok raw →
          raw.length = cur.toList.length +
            ((l :: ls).map chStrip).countP
              (fun line => (str "TRACK ").isPrefixOf line) := by
        intro cur' hl hrec
        have := ih cur' raw hrec
        simp only [List.map_cons, List.countP_cons, hT] at this ⊢
        simp [this, hl]
      simp only [trackLoop] at h
      rw [if_neg hT] at h
      split at h
      · exact key _ (by cases cur <;> simp) h
      · split at h
        · exact key _ (by cases cur <;> simp) h
        · split at h
          · exact key _ (by cases cur <;> simp) h
          · exact key _ rfl h

/-- Totality of the second loop when every `TRACK ` line's number field
parses. -/
lemma trackLoop_total (artist : Str) : ∀ (ls : List Str) (cur : Option RawTrack),
    (∀ l ∈ ls, (str "TRACK ").isPrefixOf (chStrip l) →
      (pyNat? (secondWord (chSplitWs (chStrip l)))).isSome) →
    ∃ raw, trackLoop artist ls cur = .ok raw := by
  intro ls
  induction ls with
  | nil => intro cur _; exact ⟨cur.toList, rfl⟩
  | cons l ls ih =>
    intro cur hgood
    have htail : ∀ l' ∈ ls, (str "TRACK ").isPrefixOf (chStrip l') →
        (pyNat? (secondWord (chSplitWs (chStrip l')))).isSome :=
      fun l' hl' h => hgood l' (List.mem_cons_of_mem _ hl') h
    by_cases hT : (str "TRACK ").isPrefixOf (chStrip l)
    · obtain ⟨n, hn⟩ := Option.isSome_iff_exists.mp
        (hgood l (List.mem_cons_self _ _) hT)
      obtain ⟨rest, hrec⟩ := ih
        (some ⟨n, str "Track " ++ natToChars n, artist, str "00:00:00"⟩) htail
      refine ⟨cur.toList ++ rest, ?_⟩
      simp only [trackLoop]
      rw [if_pos hT, hn]
      simp only [hrec]
    · simp only [trackLoop]
      rw [if_neg hT]
      split
      · exact ih _ htail
      · split
        · exact ih _ htail
        · split
          · exact ih _ htail
          · exact ih _ htail

/-- With no pending track and no `TRACK ` line, the loop returns the empty
list. -/
lemma trackLoop_zero (artist : Str) : ∀ (ls : List Str),
    (ls.map chStrip).countP (fun line => (str "TRACK ").isPrefixOf line) = 0 →
    trackLoop artist ls none = .ok [] := by
  intro ls
  induction ls with
  | nil => intro _; rfl
  | cons l ls ih =>
    intro h
    rw [List.countP_eq_zero] at h
    have hT : ¬ (str "TRACK ").isPrefixOf (chStrip l) := by
      have := h (chStrip l) (by simp)
      simpa using this
    have hrest : (ls.map chStrip).countP
        (fun line => (str "TRACK ").isPrefixOf line) = 0 :=
      List.countP_eq_zero.mpr (fun line hline =>
        h line (by rw [List.map_cons]; exact List.mem_cons_of_mem _ hline))
    simp [trackLoop, hT, ih hrest]

lemma linkTracks_cons_cons (album : Str) (t t2 : RawTrack) (rest : List RawTrack) :
    linkTracks album (t :: t2 :: rest) =
      ⟨t.number, t.title, t.performer, t.start_time, some t2.start_time, album⟩ ::
        linkTracks album (t2 :: rest) := by
  simp [linkTracks]

lemma linkTracks_length (album : Str) : ∀ (raw : List RawTrack),
    (linkTracks album raw).length = raw.length
  | [] => rfl
  | [_] => rfl
  | t :: t2 :: rest => by
    rw [linkTracks_cons_cons]
    simp [linkTracks_length album (t2 :: rest)]

lemma linkTracks_ne_nil (album : Str) (t : RawTrack) (rest : List RawTrack) :
    linkTracks album (t :: rest) ≠ [] := by
  intro h
  have := congrArg List.length h
  simp [linkTracks_length] at this

lemma linkTracks_head_start (album : Str) (t : RawTrack) (rest : List RawTrack) :
    ∃ x, (linkTracks album (t :: rest))[0]? = some x ∧
      x.start_time = t.start_time := by
  cases rest with
  | nil =>
    exact ⟨⟨t.number, t.title, t.performer, t.start_time, none, album⟩,
      by simp [linkTracks], rfl⟩
  | cons t2 r =>
    rw [linkTracks_cons_cons]
    exact ⟨⟨t.number, t.title, t.performer, t.start_time, some t2.start_time, album⟩,
      by simp, rfl⟩

lemma linkTracks_chain (album : Str) : ∀ (raw : List RawTrack) (i : Nat),
    i + 1 < raw.length →
    ∃ x y, (linkTracks album raw)[i]? = some x ∧
      (linkTracks album raw)[i + 1]? = some y ∧
      x.end_time = some y.start_time
  | [], i, h => by simp at h
  | [_], i, h => by simp at h
  | t :: t2 :: rest, 0, _ => by
    rw [linkTracks_cons_cons]
    obtain ⟨y, hy, hys⟩ := linkTracks_head_start album t2 rest
    exact ⟨⟨t.number, t.title, t.performer, t.start_time, some t2.start_time, album⟩,
      y, by simp, by simpa using hy, by rw [hys]⟩
  | t :: t2 :: rest, i + 1, h => by
    rw [linkTracks_cons_cons]
    obtain ⟨x, y, hx, hy, hxy⟩ := linkTracks_chain album (t2 :: rest) i
      (by simp at h ⊢; omega)
    exact ⟨x, y, by simpa using hx, by simpa using hy, hxy⟩

lemma linkTracks_last (album : Str) : ∀ (raw : List RawTrack), raw ≠ [] →
    ∃ x, (linkTracks album raw)[raw.length - 1]? = some x ∧ x.end_time = none
  | [], h => absurd rfl h
  | [t], _ =>
    ⟨⟨t.number, t.title, t.performer, t.start_time, none, album⟩,
      by simp [linkTracks], rfl⟩
  | t :: t2 :: rest, _ => by
    rw [linkTracks_cons_cons]
    obtain ⟨x, hx, hxe⟩ := linkTracks_last album (t2 :: rest) (by simp)
    refine ⟨x, ?_, hxe⟩
    have hlen : (t :: t2 :: rest).length - 1 = ((t2 :: rest).length - 1) + 1 := by
      simp
    rw [hlen]
    simpa using hx

end Musictl

namespace Musictl

/-- Claim C5, counterexample: parsing is not total — a `TRACK` line whose
number field is not an integer makes `int(track_parts[1])` raise, so
`parse_cue` errors instead of returning a CueSheet. -/
theorem c5_counterexample :
    parse_cue (str "TRACK AB AUDIO") =
      .error (str "invalid literal for int") := rfl

/-- Claim C5 as amended: `parse_cue` returns without raising for every
*nonempty* decoded text all of whose `TRACK ` lines carry an
integer-parsable number field.  (The Latin-1 decoding fallback is granted
total, as the spec assumes; even so, decoded-empty input trips the
`if not content:` guard and raises, and a non-integer `TRACK` number
raises `ValueError` — so totality holds only on this restricted domain.) -/
theorem c5_parse_total_on_wellformed (content : Str)
    (hne : content ≠ [])
    (hnum : ∀ l ∈ chSplitChar '\n' content,
      (str "TRACK ").isPrefixOf (chStrip l) →
      (pyNat? (secondWord (chSplitWs (chStrip l)))).isSome) :
    ∃ res, parse_cue content = .ok res := by
  rcases hscan : albumScan (chSplitChar '\n' content)
      (unknownAlbum, unknownArtist) with ⟨al, ar⟩
  obtain ⟨raw, hraw⟩ := trackLoop_total ar (chSplitChar '\n' content) none hnum
  refine ⟨(ar, al, linkTracks al raw), ?_⟩
  simp only [parse_cue]
  rw [if_neg hne, hscan]
  simp only [hraw]

/-- Witness for `c5_parse_total_on_wellformed` at a concrete well-formed
CUE text. -/
theorem c5_parse_total_on_wellformed_witness :
    ∃ res, parse_cue (str "TRACK 01 AUDIO") = .ok res :=
  c5_parse_total_on_wellformed (str "TRACK 01 AUDIO") (by decide) (by decide)

/-- The numbers of the produced tracks are exactly the parsed `TRACK`
line numbers, in declaration order (with the pending track in front). -/
lemma trackLoop_numbers (artist : Str) : ∀ (ls : List Str)
    (cur : Option RawTrack) (raw : List RawTrack),
    trackLoop artist ls cur = .ok raw →
    raw.map RawTrack.number = cur.toList.map RawTrack.number ++
      (ls.map chStrip).filterMap (fun line =>
        if (str "TRACK ").isPrefixOf line then
          pyNat? (secondWord (chSplitWs line)) else none) := by
  intro ls
  induction ls with
  | nil =>
    intro cur raw h
    simp only [trackLoop, Except.ok.injEq] at h
    subst h
    simp
  | cons l ls ih =>
    intro cur raw h
    by_cases hT : (str "TRACK ").isPrefixOf (chStrip l)
    · cases hn : pyNat? (secondWord (chSplitWs (chStrip l))) with
      | none => simp [trackLoop, hT, hn] at h
      | some n =>
        cases hrec : trackLoop artist ls
            (some ⟨n, str "Track " ++ natToChars n, artist, str "00:00:00"⟩) with
        | error e => simp [trackLoop, hT, hn, hrec] at h
        | ok rest =>
          simp only [trackLoop] at h
          rw [if_pos hT, hn] at h
          simp only [hrec, Except.ok.injEq] at h
          have hrest := ih _ _ hrec
          simp only [Option.toList_some, List.map_cons, List.map_nil] at hrest
          subst h
          rw [ List.isPrefixOf_iff_prefix] at hT
          simp [List.filterMap_cons, hT, hn, hrest]
    · have key : ∀ (cur' : Option RawTrack),
          cur'.toList.map RawTrack.number = cur.toList.map RawTrack.number →
          trackLoop artist ls cur' = .ok raw →
          raw.map RawTrack.number = cur.toList.map RawTrack.number ++
            ((l :: ls).map chStrip).filterMap (fun line =>
              if (str "TRACK ").isPrefixOf line then
                pyNat? (secondWord (chSplitWs line)) else none) := by
        intro cur' hl hrec
        have := ih cur' raw hrec
        simp only [List.map_cons, List.filterMap_cons, hT] at this ⊢
        simp [this, hl]
      simp only [trackLoop] at h
      rw [if_neg hT] at h
      split at h
      · exact key _ (by cases cur <;> simp) h
      · split at h
        · exact key _ (by cases cur <;> simp) h
        · split at h
          · exact key _ (by cases cur <;> simp) h
          · exact key _ rfl h

lemma linkTracks_numbers (album : Str) : ∀ (raw : List RawTrack),
    (linkTracks album raw).map CueTrack.number = raw.map RawTrack.number
  | [] => rfl
  | [_] => rfl
  | t :: t2 :: rest => by
    rw [linkTracks_cons_cons]
    simp [linkTracks_numbers album (t2 :: rest)]

/-- Claim C6, counterexample: the empty CUE text has zero `TRACK` lines
yet does not parse to an empty track list — the emptiness guard raises. -/
theorem c6_counterexample :
    parse_cue (str "") =
      .error (str "Could not read CUE file with any encoding") ∧
    ((chSplitChar '\n' (str "")).map chStrip).countP
      (fun line => (str "TRACK ").isPrefixOf line) = 0 := ⟨rfl, by decide⟩

/-- Claim C6 as amended: whenever `parse_cue` succeeds, the track list has
exactly one entry per `TRACK `-prefixed (stripped) line in declaration
order, `tracks[i].end_time = tracks[i+1].start_time` for every `i < N-1`,
and the final track's `end_time` is absent; and every *nonempty* CUE text
with zero `TRACK` lines parses to an empty track list without error (the
empty text instead trips the emptiness guard). -/
theorem c6_track_list_invariants :
    (∀ content artist album ts, parse_cue content = .ok (artist, album, ts) →
      ts.length = ((chSplitChar '\n' content).map chStrip).countP
        (fun line => (str "TRACK ").isPrefixOf line) ∧
      ts.map CueTrack.number = ((chSplitChar '\n' content).map chStrip).filterMap
        (fun line => if (str "TRACK ").isPrefixOf line then
          pyNat? (secondWord (chSplitWs line)) else none) ∧
      (∀ i, i + 1 < ts.length →
        ∃ x y, ts[i]? = some x ∧ ts[i + 1]? = some y ∧
          x.end_time = some y.start_time) ∧
      (ts ≠ [] → ∃ x, ts[ts.length - 1]? = some x ∧ x.end_time = none)) ∧
    (∀ content, content ≠ [] →
      ((chSplitChar '\n' content).map chStrip).countP
        (fun line => (str "TRACK ").isPrefixOf line) = 0 →
      ∃ artist album, parse_cue content = .ok (artist, album, [])) := by
  constructor
  · intro content artist album ts h
    simp only [parse_cue] at h
    split at h
    · exact absurd h (by simp)
    · rcases hscan : albumScan (chSplitChar '\n' content)
          (unknownAlbum, unknownArtist) with ⟨al, ar⟩
      rw [hscan] at h
      cases htr : trackLoop ar (chSplitChar '\n' content) none with
      | error e => simp [htr] at h
      | ok raw =>
        simp only [htr, Except.ok.injEq, Prod.mk.injEq] at h
        obtain ⟨rfl, rfl, rfl⟩ := h
        have hlen := trackLoop_length ar (chSplitChar '\n' content) none raw htr
        simp only [Option.toList_none, List.length_nil, Nat.zero_add] at hlen
        have hll := linkTracks_length al raw
        have hnum := trackLoop_numbers ar (chSplitChar '\n' content) none raw htr
        simp only [Option.toList_none, List.map_nil, List.nil_append] at hnum
        refine ⟨by rw [hll, hlen], by rw [linkTracks_numbers, hnum], ?_, ?_⟩
        · intro i hi
          exact linkTracks_chain al raw i (by rw [← hll]; exact hi)
        · intro hne
          have hrne : raw ≠ [] := by
            intro hr
            subst hr
            exact hne rfl
          obtain ⟨x, hx, hxe⟩ := linkTracks_last al raw hrne
          exact ⟨x, by rw [hll]; exact hx, hxe⟩
  · intro content hne hzero
    rcases hscan : albumScan (chSplitChar '\n' content)
        (unknownAlbum, unknownArtist) with ⟨al, ar⟩
    refine ⟨ar, al, ?_⟩
    simp only [parse_cue]
    rw [if_neg hne, hscan]
    simp only [trackLoop_zero ar _ hzero]
    rfl

/-- Witness for `c6_track_list_invariants` (second conjunct) at a concrete
`TRACK`-free text. -/
theorem c6_track_list_invariants_witness :
    ∃ artist album, parse_cue (str "REM nothing here") = .ok (artist, album, []) :=
  c6_track_list_invariants.2 (str "REM nothing here") (by decide) (by decide)

end Musictl

namespace Musictl

/-! ## Filename-based metadata — `Controller._extract_from_filename`
(controller.py 238–263): artist from the grandparent directory name, album
from the parent directory name with a leading `"<token> - "` stripped, and
track number/title parsed from the filename stem. -/

/-- The tuple of prefixes tested by `filename.startswith(("01", …, "09"))`
on line 253 — note it covers only `01`–`09`. -/
def digitPrefixes : List Str :=
  [str "01", str "02", str "03", str "04", str "05", str "06", str "07",
   str "08", str "09"]

/-- `Controller._extract_from_filename`, taking the grandparent directory
name, the parent directory name and the filename stem of the input path. -/
def extract_from_filename (grandparent parent stem : Str) :
    Str × Str × Str × Str :=
  let album_name :=
    match chSplitFirst (str " - ") parent with
    | some (_, rest) => rest
    | none => parent
  let numTitle :=
    if digitPrefixes.any (fun q => q.isPrefixOf stem) then
      match chSplitFirst (str " - ") stem with
      | some (a, b) => (a, b)
      | none => (stem.take 2, chStripChars (str " -") (stem.drop 2))
    else (str "00", stem)
  (grandparent, album_name, numTitle.1, numTitle.2)

/-- Splitting at the first separator occurrence reassembles the input, and
the part before the separator contains no separator occurrence. -/
lemma chSplitFirst_spec (sep : Str) : ∀ (cs a b : Str),
    chSplitFirst sep cs = some (a, b) →
    a ++ sep ++ b = cs ∧ chHasSub sep a = false := by
  intro cs
  induction cs with
  | nil => intro a b h; simp [chSplitFirst] at h
  | cons c cs ih =>
    intro a b h
    simp only [chSplitFirst] at h
    split at h
    case isTrue hp =>
      simp only [Option.some.injEq, Prod.mk.injEq] at h
      obtain ⟨rfl, rfl⟩ := h
      obtain ⟨t, ht⟩ := List.isPrefixOf_iff_prefix.mp hp
      constructor
      · rw [← ht, List.drop_left]
        simp
      · rfl
    case isFalse hp =>
      cases hrec : chSplitFirst sep cs with
      | none => rw [hrec] at h; cases h
      | some ab =>
        obtain ⟨x, y⟩ := ab
        rw [hrec] at h
        simp only [Option.some.injEq, Prod.mk.injEq] at h
        obtain ⟨rfl, rfl⟩ := h
        obtain ⟨hcat, hno⟩ := ih x y hrec
        refine ⟨by simpa using hcat, ?_⟩
        have hxnone : chSplitFirst sep x = none := by
          cases hx : chSplitFirst sep x with
          | none => rfl
          | some ab2 =>
            rw [chHasSub, hx] at hno
            simp at hno
        have hnp : ¬ sep.isPrefixOf (c :: x) = true := by
          intro hpx
          apply hp
          rw [ List.isPrefixOf_iff_prefix] at hpx ⊢
          have : (c :: x) <+: (c :: cs) := by
            rw [← hcat]
            simp only [← List.cons_append, List.append_assoc]
            exact (c :: x).prefix_append (sep ++ y)
          calc sep <+: (c :: x) := hpx
            _ <+: (c :: cs) := this
      -- re-assemble `chHasSub` for `c :: x`
        rw [chHasSub, chSplitFirst, if_neg hnp, hxnone]
        rfl

/-- Claim C7, counterexample: a stem beginning with the two digits `10` is
*not* split (the code only tests prefixes `01`–`09`), and a stem
`"01 - "` produces an empty title — contradicting both the "begins with
two digits ⇒ split" rule and the "four non-empty strings" contract. -/
theorem c7_counterexample :
    extract_from_filename (str "Artist") (str "Album") (str "10 - Song") =
      (str "Artist", str "Album", str "00", str "10 - Song") ∧
    (str "00", str "10 - Song") ≠ (str "10", str "Song") ∧
    (extract_from_filename (str "Artist") (str "Album") (str "01 - ")).2.2.2 =
      str "" := ⟨rfl, by decide, rfl⟩

/-- Claim C7 as amended: artist is the grandparent name; if the stem begins
with one of `"01"`–`"09"` and contains `" - "`, the stem is split at the
*first* `" - "` into number and title (number is exactly the text before
that separator — not reformatted to two digits — and the title may be
empty); with such a prefix but no `" - "`, the number is the first two
characters and the title the remainder stripped of spaces and hyphens; any
other stem (including those starting `"10"`–`"99"`) yields number `"00"`
and the whole stem as title. -/
theorem c7_extract_from_filename_spec (gp p stem : Str) :
    (extract_from_filename gp p stem).1 = gp ∧
    (digitPrefixes.any (fun q => q.isPrefixOf stem) = true →
      (∀ a b, chSplitFirst (str " - ") stem = some (a, b) →
        (extract_from_filename gp p stem).2.2 = (a, b) ∧
        a ++ str " - " ++ b = stem ∧ chHasSub (str " - ") a = false) ∧
      (chSplitFirst (str " - ") stem = none →
        (extract_from_filename gp p stem).2.2 =
          (stem.take 2, chStripChars (str " -") (stem.drop 2)))) ∧
    (digitPrefixes.any (fun q => q.isPrefixOf stem) = false →
      (extract_from_filename gp p stem).2.2 = (str "00", stem)) := by
  refine ⟨rfl, ?_, ?_⟩
  · intro hd
    constructor
    · intro a b hab
      obtain ⟨hcat, hno⟩ := chSplitFirst_spec (str " - ") stem a b hab
      refine ⟨?_, hcat, hno⟩
      simp [extract_from_filename, hd, hab]
    · intro hnone
      simp [extract_from_filename, hd, hnone]
  · intro hd
    simp [extract_from_filename, hd]

/-- Witness for `c7_extract_from_filename_spec` at the concrete stem
`"03 - Foo"`. -/
theorem c7_extract_from_filename_spec_witness :
    (extract_from_filename (str "A") (str "2020 - B") (str "03 - Foo")).2.2 =
      (str "03", str "Foo") ∧
    str "03" ++ str " - " ++ str "Foo" = str "03 - Foo" := by
  have h := (c7_extract_from_filename_spec (str "A") (str "2020 - B")
    (str "03 - Foo")).2.1 (by decide)
  have h2 := h.1 (str "03") (str "Foo") (by decide)
  exact ⟨h2.1, h2.2.1⟩

end Musictl

namespace Musictl

/-! ## Audio splitting — `CueSplitter.split_audio` and `_check_ffmpeg`
(cue_splitter.py 143–188)

Effects are modelled as an explicit event trace.  `_check_ffmpeg` runs
`ffmpeg -version` once; `split_audio` calls it once before any per-track
work and raises `RuntimeError` when it fails.  Each track then gets one
transcoder invocation; a non-zero exit (oracle `succ` on the output path)
skips that track only. -/

/-- Observable filesystem / process effects of the import pipeline. -/
inductive Ev
  | ffmpegCheck
  | ffmpegRun (out : Str) (ok : Bool)
  | rename (src dst : Str)
  | mkdir (path : Str)
  | copy (src dst : Str)
  | logAppend (line : Str)
  | logWarn
  | del (path : Str)
  | tempDel (path : Str)
  | tempRmdir
  deriving DecidableEq, Repr

/-- `CueSplitter._sanitize_filename` (cue_splitter.py 204–209): replace
filesystem-hostile characters by `_`, then strip whitespace. -/
def sanitize_filename (name : Str) : Str :=
  chStrip (name.map (fun ch =>
    if (str "<>:\"/\\|?*").contains ch then '_' else ch))

/-- The temporary directory produced by `tempfile.mkdtemp()`, as an
abstract path constant. -/
def tempDir : Str := str "/tmp/extract"

/-- Output path for one track (cue_splitter.py line 151):
`{NN} - {sanitized title}{audio suffix}` inside the output directory. -/
def trackOut (outputDir suffix : Str) (t : CueTrack) : Str :=
  outputDir ++ str "/" ++ padNum 2 t.number ++ str " - " ++
    sanitize_filename t.title ++ suffix

/-- Per-track loop of `split_audio` (lines 150–178): one invocation per
track, failures skipped, successes collected in order. -/
def splitTracks (succ : Str → Bool) (outputDir suffix : Str) :
    List CueTrack → List Str × List Ev
  | [] => ([], [])
  | t :: ts =>
    let out := trackOut outputDir suffix t
    let rest := splitTracks succ outputDir suffix ts
    if succ out then (out :: rest.1, .ffmpegRun out true :: rest.2)
    else (rest.1, .ffmpegRun out false :: rest.2)

/-- `CueSplitter.split_audio`: the availability check happens exactly once,
before any per-track work; absence raises `RuntimeError` (modelled as
`.error`). -/
def split_audio (ffmpegAvailable : Bool) (succ : Str → Bool)
    (suffix : Str) (tracks : List CueTrack) (outputDir : Str) :
    Except Str (List Str) × List Ev :=
  if ¬ ffmpegAvailable then
    (.error (str "ffmpeg not found. Please install ffmpeg to split CUE files."),
     [.ffmpegCheck])
  else
    let r := splitTracks succ outputDir suffix tracks
    (.ok r.1, .ffmpegCheck :: r.2)

lemma splitTracks_spec (succ : Str → Bool) (outputDir suffix : Str) :
    ∀ tracks : List CueTrack,
    splitTracks succ outputDir suffix tracks =
      ((tracks.filter (fun t => succ (trackOut outputDir suffix t))).map
        (trackOut outputDir suffix),
       tracks.map (fun t =>
        Ev.ffmpegRun (trackOut outputDir suffix t)
          (succ (trackOut outputDir suffix t)))) := by
  intro tracks
  induction tracks with
  | nil => rfl
  | cons t ts ih =>
    by_cases hs : succ (trackOut outputDir suffix t) <;>
      simp [splitTracks, ih, hs, List.filter_cons]

/-- Claim C8: the transcoder availability check runs exactly once, before
any per-track work, and its failure is a distinct whole-split error with no
track attempted; with an available transcoder, the result lists one output
per succeeding track in input order, each track gets exactly one
invocation even when earlier tracks fail, and the operation returns `.ok`
regardless of per-track failures. -/
theorem c8_split_audio_isolation (avail : Bool) (succ : Str → Bool)
    (suffix outputDir : Str) (tracks : List CueTrack) :
    (avail = false →
      split_audio avail succ suffix tracks outputDir =
        (.error (str "ffmpeg not found. Please install ffmpeg to split CUE files."),
         [.ffmpegCheck])) ∧
    (avail = true →
      (split_audio avail succ suffix tracks outputDir).1 =
        .ok ((tracks.filter (fun t => succ (trackOut outputDir suffix t))).map
          (trackOut outputDir suffix)) ∧
      (split_audio avail succ suffix tracks outputDir).2 =
        Ev.ffmpegCheck :: tracks.map (fun t =>
          Ev.ffmpegRun (trackOut outputDir suffix t)
            (succ (trackOut outputDir suffix t)))) := by
  constructor
  · intro h
    subst h
    rfl
  · intro h
    subst h
    simp [split_audio, splitTracks_spec]

/-- Witness for `c8_split_audio_isolation`: with ffmpeg available and the
first of two tracks failing, the lone output is the second track's file,
both tracks were attempted, and the check ran exactly once up front. -/
theorem c8_split_audio_isolation_witness :
    (split_audio true
        (fun out => decide (out ≠ str "/tmp/extract/01 - One.flac"))
        (str ".flac")
        [⟨1, str "One", str "P", str "00:00:00", some (str "01:00:00"), str "Al"⟩,
         ⟨2, str "Two", str "P", str "01:00:00", none, str "Al"⟩]
        tempDir).1 =
      .ok [str "/tmp/extract/02 - Two.flac"] ∧
    (split_audio true
        (fun out => decide (out ≠ str "/tmp/extract/01 - One.flac"))
        (str ".flac")
        [⟨1, str "One", str "P", str "00:00:00", some (str "01:00:00"), str "Al"⟩,
         ⟨2, str "Two", str "P", str "01:00:00", none, str "Al"⟩]
        tempDir).2 =
      [Ev.ffmpegCheck, Ev.ffmpegRun (str "/tmp/extract/01 - One.flac") false,
       Ev.ffmpegRun (str "/tmp/extract/02 - Two.flac") true] := by
  have h := (c8_split_audio_isolation true
    (fun out => decide (out ≠ str "/tmp/extract/01 - One.flac"))
    (str ".flac") tempDir
    [⟨1, str "One", str "P", str "00:00:00", some (str "01:00:00"), str "Al"⟩,
     ⟨2, str "Two", str "P", str "01:00:00", none, str "Al"⟩]).2 rfl
  refine ⟨?_, ?_⟩
  · rw [h.1]
    rfl
  · rw [h.2]
    decide

end Musictl

namespace Musictl

/-! ## Import pipeline — `Controller.import_tracks` (controller.py 402–603)
with `Controller._log_import` (388–400) and `Config` (config.py 7–73)

The pipeline is modelled as a pure function of an environment that
supplies the values the Python code obtains from the filesystem, the
configuration, the interactive prompts and the external tools:
discovered CUE pairs (`find_cue_files`), the recursive audio scan
(`FileScanner.scan`), the tag-based metadata resolver
(`Controller._extract_metadata`, whose `mutagen` I/O is an oracle), the
two prompt answers, the ffmpeg oracles, the initial content of the target
directory, and copy/delete success oracles.  `importLogFile` models the
result of looking up `Config.get_import_log_file`: config.py defines
accessors only for track-count options, music directories, base path,
player command, ignored dirs and music extensions — `get_import_log_file`
does not exist, so the attribute lookup raises `AttributeError` and the
real lookup result is `none` (recorded as `configGetImportLogFile`). -/

/-- A discovered CUE pair: `(cue_file, audio_file)` plus the decoded CUE
text that reading `cue_file` yields. -/
structure CuePair where
  cueName : Str
  audioName : Str
  cueText : Str
  deriving DecidableEq

/-- Environment of one `import_tracks` run. -/
structure Env where
  sourceExists : Bool
  targetSpec : Str
  musicDirs : List Str
  basePath : Str
  yearMonth : Str
  timestamp : Str
  cuePairs : List CuePair
  scanFiles : List Str
  resolveTags : Str → Str × Str × Str × Str
  splitAnswer : Str
  deleteAnswer : Str
  ffmpegAvailable : Bool
  ffmpegOk : Str → Bool
  targetExisting : List Str
  copyOk : Str → Str → Bool
  delOk : Str → Bool
  importLogFile : Option Str

/-- What `Config.get_import_log_file` resolves to in config.py: the class
has no such attribute, so there is no log-file path to return. -/
def configGetImportLogFile : Option Str := none

/-- The log line of controller.py line 395. -/
def mkLogLine (ts src tgt : Str) : Str :=
  ts ++ str " | " ++ src ++ str " -> " ++ tgt ++ str "\n"

/-- `Controller._log_import` (controller.py 388–400): the whole body is a
`try/except` that reports any failure as a warning.  With no
`get_import_log_file` accessor (`none`) the very first statement raises
`AttributeError`, so only the warning is printed; with an accessor
present, one formatted line is appended (directory creation and the write
are taken as succeeding). -/
def log_import (logFile : Option Str) (ts src tgt : Str) : List Ev :=
  match logFile with
  | none => [.logWarn]
  | some _ => [.logAppend (mkLogLine ts src tgt)]

/-- `{base}/{root}/{subdir}/{year-month}` (controller.py 426–428). -/
def targetPath (env : Env) (root subdir : Str) : Str :=
  env.basePath ++ str "/" ++ root ++ str "/" ++ subdir ++ str "/" ++
    env.yearMonth

/-- `response.strip().lower() in ['y', 'yes']` (lines 465, 563). -/
def yesAnswer (ans : Str) : Bool :=
  decide (chLower (chStrip ans) = str "y") ||
    decide (chLower (chStrip ans) = str "yes")

/-- The split prompt is posed only when CUE pairs exist; extraction runs
only on an affirmative answer (lines 452–467). -/
def splitConfirmed (env : Env) : Bool :=
  decide (env.cuePairs ≠ []) && yesAnswer env.splitAnswer

/-- EXTRACT step for one confirmed CUE pair (controller.py 471–491):
re-parse the CUE, split into the temp directory, then rename each
extracted output *positionally* against the full parsed track list
(`for i, extracted_file in enumerate(extracted): if i < len(tracks)`).
A parse error or the `RuntimeError` from a missing ffmpeg aborts only
this pair.  Returns the final (renamed) temp paths and the events. -/
def processPair (env : Env) (pair : CuePair) : List Str × List Ev :=
  match parse_cue pair.cueText with
  | .error _ => ([], [])
  | .ok (_, album, tracks) =>
    let suffix := pySuffix pair.audioName
    let r := split_audio env.ffmpegAvailable env.ffmpegOk suffix tracks tempDir
    match r.1 with
    | .error _ => ([], r.2)
    | .ok extracted =>
      let renames := (extracted.zip tracks).map (fun ft =>
        (ft.1, tempDir ++ str "/" ++ ft.2.performer ++ str " - " ++ album ++
          str " - " ++ padNum 2 ft.2.number ++ str " - " ++ ft.2.title ++
          pySuffix ft.1))
      (renames.map Prod.snd,
       r.2 ++ renames.map (fun ft => Ev.rename ft.1 ft.2))

/-- The extraction loop over all confirmed pairs, in discovery order. -/
def extractPairs (env : Env) : List CuePair → List Str × List Ev
  | [] => ([], [])
  | p :: ps =>
    let r := processPair env p
    let rest := extractPairs env ps
    (r.1 ++ rest.1, r.2 ++ rest.2)

/-- Resolved output filename for one staged file (controller.py 525–531):
extracted files keep their (already final) basename; regular files get
`{artist} - {album} - {track} - {title}{suffix}` from the tag resolver. -/
def newFilename (env : Env) (extracted : List Str) (f : Str) : Str :=
  if f ∈ extracted then basename f
  else
    let m := env.resolveTags f
    m.1 ++ str " - " ++ m.2.1 ++ str " - " ++ m.2.2.1 ++ str " - " ++
      m.2.2.2 ++ pySuffix f

/-- COPY / LOG loop (controller.py 523–555).  `tfs` holds the filenames
currently present in the target directory (it grows with each successful
copy); a resolved name already present is skipped; a failing copy is
reported and skipped; each successful copy is followed by the
`_log_import` call, and non-extracted sources are recorded for the
deletion step.  Returns `(count, processed sources, events)`. -/
def copyLoop (env : Env) (tpath : Str) (extracted : List Str) :
    List Str → List Str → Nat × List Str × List Ev
  | [], _ => (0, [], [])
  | f :: fs, tfs =>
    let name := newFilename env extracted f
    if name ∈ tfs then copyLoop env tpath extracted fs tfs
    else
      let tgt := tpath ++ str "/" ++ name
      if env.copyOk f tgt then
        let levs := log_import env.importLogFile env.timestamp f tgt
        let rest := copyLoop env tpath extracted fs (name :: tfs)
        (rest.1 + 1,
         (if f ∈ extracted then rest.2.1 else f :: rest.2.1),
         Ev.copy f tgt :: levs ++ rest.2.2)
      else copyLoop env tpath extracted fs tfs

/-- CONFIRM_DELETE step (controller.py 560–587): on an affirmative
answer, delete the processed regular sources one by one, then each CUE
pair's two files (the audio is attempted only if deleting the CUE sheet
did not raise); per-file failures skip only that file (pair). -/
def deleteEvents (env : Env) (processed : List Str) : List Ev :=
  (processed.flatMap (fun f => if env.delOk f then [Ev.del f] else [])) ++
    (env.cuePairs.flatMap (fun p =>
      if env.delOk p.cueName then
        Ev.del p.cueName ::
          (if env.delOk p.audioName then [Ev.del p.audioName] else [])
      else []))

/-- CLEANUP (`finally`, controller.py 591–603): best-effort unlink of each
temp file, then `rmdir` of the temp directory when it was created. -/
def cleanupEvents (tempMade : Bool) (extracted : List Str) : List Ev :=
  extracted.map Ev.tempDel ++ (if tempMade then [Ev.tempRmdir] else [])

/-- Terminal outcomes of a run. -/
inductive RunStatus
  | srcMissing
  | badTargetFormat
  | badRoot
  | nothingToImport
  | completed (n : Nat)
  deriving DecidableEq, Repr

/-- Status plus the ordered trace of effects. -/
structure RunResult where
  status : RunStatus
  events : List Ev

/-- `Controller.import_tracks` (controller.py 402–603). -/
def import_tracks (env : Env) : RunResult :=
  if ¬ env.sourceExists then ⟨.srcMissing, []⟩
  else
    match chSplitChar '/' env.targetSpec with
    | [root, subdir] =>
      if root ∈ env.musicDirs then
        let tpath := targetPath env root subdir
        let ext := if splitConfirmed env then extractPairs env env.cuePairs
                   else ([], [])
        let cueAudio := env.cuePairs.map CuePair.audioName
        let regular := env.scanFiles.filter (fun f => decide (f ∉ cueAudio))
        let allFiles := regular ++ ext.1
        let cleanup := cleanupEvents (splitConfirmed env) ext.1
        if allFiles = [] then
          ⟨.nothingToImport, Ev.mkdir tpath :: (ext.2 ++ cleanup)⟩
        else
          let c := copyLoop env tpath ext.1 allFiles env.targetExisting
          let dels :=
            if (c.2.1 ≠ [] ∨ env.cuePairs ≠ []) ∧ yesAnswer env.deleteAnswer
            then deleteEvents env c.2.1
            else []
          ⟨.completed c.1, Ev.mkdir tpath :: (ext.2 ++ c.2.2 ++ dels ++ cleanup)⟩
      else ⟨.badRoot, []⟩
    | _ => ⟨.badTargetFormat, []⟩

/-! Trace projections used by the claim statements. -/

/-- The `(source, target)` pairs of the successful copies in a trace. -/
def copiesOf (evs : List Ev) : List (Str × Str) :=
  evs.filterMap (fun e => match e with | .copy s t => some (s, t) | _ => none)

/-- The appended import-log lines in a trace. -/
def logAppendsOf (evs : List Ev) : List Str :=
  evs.filterMap (fun e => match e with | .logAppend l => some l | _ => none)

/-- The number of log-write warnings in a trace. -/
def logWarnCount (evs : List Ev) : Nat :=
  evs.countP (fun e => match e with | .logWarn => true | _ => false)

/-- The successfully deleted source paths in a trace. -/
def deletionsOf (evs : List Ev) : List Str :=
  evs.filterMap (fun e => match e with | .del p => some p | _ => none)

/-- The renames performed in a trace. -/
def renamesOf (evs : List Ev) : List (Str × Str) :=
  evs.filterMap (fun e => match e with | .rename s d => some (s, d) | _ => none)

/-- The transcoder invocations in a trace. -/
def ffmpegRunsOf (evs : List Ev) : List (Str × Bool) :=
  evs.filterMap (fun e => match e with | .ffmpegRun o k => some (o, k) | _ => none)

end Musictl

namespace Musictl

/-! Helper lemmas: which event kinds each phase can emit, and how the
trace projections act on them. -/

lemma copiesOf_eq_nil {evs : List Ev} (h : ∀ s t, Ev.copy s t ∉ evs) :
    copiesOf evs = [] := by
  rw [copiesOf, List.filterMap_eq_nil]
  intro e he
  cases e with
  | copy s t => exact absurd he (h s t)
  | _ => rfl

lemma logAppendsOf_eq_nil {evs : List Ev} (h : ∀ l, Ev.logAppend l ∉ evs) :
    logAppendsOf evs = [] := by
  rw [logAppendsOf, List.filterMap_eq_nil]
  intro e he
  cases e with
  | logAppend l => exact absurd he (h l)
  | _ => rfl

lemma logWarnCount_eq_zero {evs : List Ev} (h : Ev.logWarn ∉ evs) :
    logWarnCount evs = 0 := by
  rw [logWarnCount, List.countP_eq_zero]
  intro e he
  cases e with
  | logWarn => exact absurd he h
  | _ => simp

lemma deletionsOf_eq_nil {evs : List Ev} (h : ∀ p, Ev.del p ∉ evs) :
    deletionsOf evs = [] := by
  rw [deletionsOf, List.filterMap_eq_nil]
  intro e he
  cases e with
  | del p => exact absurd he (h p)
  | _ => rfl

lemma renamesOf_eq_nil {evs : List Ev} (h : ∀ s d, Ev.rename s d ∉ evs) :
    renamesOf evs = [] := by
  rw [renamesOf, List.filterMap_eq_nil]
  intro e he
  cases e with
  | rename s d => exact absurd he (h s d)
  | _ => rfl

lemma ffmpegRunsOf_eq_nil {evs : List Ev} (h : ∀ o k, Ev.ffmpegRun o k ∉ evs) :
    ffmpegRunsOf evs = [] := by
  rw [ffmpegRunsOf, List.filterMap_eq_nil]
  intro e he
  cases e with
  | ffmpegRun o k => exact absurd he (h o k)
  | _ => rfl

/-- Events of `split_audio` are the availability check and per-track
invocations. -/
lemma mem_split_audio_events (avail : Bool) (succ : Str → Bool)
    (sfx : Str) (tracks : List CueTrack) (od : Str) :
    ∀ e ∈ (split_audio avail succ sfx tracks od).2,
    e = Ev.ffmpegCheck ∨ ∃ o k, e = Ev.ffmpegRun o k := by
  intro e he
  rw [split_audio] at he
  split at he
  · simp at he
    subst he
    exact Or.inl rfl
  · simp only [splitTracks_spec, List.mem_cons] at he
    rcases he with rfl | he
    · exact Or.inl rfl
    · simp only [List.mem_map] at he
      obtain ⟨t, _, rfl⟩ := he
      exact Or.inr ⟨_, _, rfl⟩

/-- Events of one pair's EXTRACT step are checks, runs and renames. -/
lemma mem_processPair_events (env : Env) (p : CuePair) :
    ∀ e ∈ (processPair env p).2,
    e = Ev.ffmpegCheck ∨ (∃ o k, e = Ev.ffmpegRun o k) ∨
      ∃ s d, e = Ev.rename s d := by
  intro e he
  rw [processPair] at he
  rcases hp : parse_cue p.cueText with e' | ⟨a, album, tracks⟩
  · simp only [hp] at he
    simp at he
  · simp only [hp] at he
    rcases hsp : (split_audio env.ffmpegAvailable env.ffmpegOk
        (pySuffix p.audioName) tracks tempDir).1 with e2 | extracted
    · simp only [hsp] at he
      rcases mem_split_audio_events _ _ _ _ _ e he with h | h
      · exact Or.inl h
      · exact Or.inr (Or.inl h)
    · simp only [hsp, List.mem_append] at he
      rcases he with he | he
      · rcases mem_split_audio_events _ _ _ _ _ e he with h | h
        · exact Or.inl h
        · exact Or.inr (Or.inl h)
      · simp only [List.mem_map] at he
        obtain ⟨ft, _, rfl⟩ := he
        exact Or.inr (Or.inr ⟨_, _, rfl⟩)

/-- Events of the EXTRACT phase are transcoder checks/runs and renames. -/
lemma mem_extractPairs_events (env : Env) : ∀ (ps : List CuePair)
    (e : Ev), e ∈ (extractPairs env ps).2 →
    e = Ev.ffmpegCheck ∨ (∃ o k, e = Ev.ffmpegRun o k) ∨
      ∃ s d, e = Ev.rename s d := by
  intro ps
  induction ps with
  | nil => intro e he; simp [extractPairs] at he
  | cons p ps ih =>
    intro e he
    simp only [extractPairs, List.mem_append] at he
    rcases he with he | he
    · exact mem_processPair_events env p e he
    · exact ih e he

/-- Events of the COPY phase are copies, log appends and log warnings. -/
lemma mem_copyLoop_events (env : Env) (tpath : Str) (extracted : List Str) :
    ∀ (fs tfs : List Str) (e : Ev),
    e ∈ (copyLoop env tpath extracted fs tfs).2.2 →
    (∃ s t, e = Ev.copy s t) ∨ (∃ l, e = Ev.logAppend l) ∨ e = Ev.logWarn := by
  intro fs
  induction fs with
  | nil => intro tfs e he; simp [copyLoop] at he
  | cons f fs ih =>
    intro tfs e he
    simp only [copyLoop] at he
    split at he
    · exact ih tfs e he
    · split at he
      · simp only [List.mem_cons, List.mem_append] at he
        rcases he with (rfl | he) | he
        · exact Or.inl ⟨_, _, rfl⟩
        · cases hlf : env.importLogFile with
          | none =>
            rw [log_import.eq_def, hlf] at he
            simp at he
            subst he
            exact Or.inr (Or.inr rfl)
          | some lf =>
            rw [log_import.eq_def, hlf] at he
            simp at he
            subst he
            exact Or.inr (Or.inl ⟨_, rfl⟩)
        · exact ih _ e he
      · exact ih tfs e he

/-- Events of the CONFIRM_DELETE phase are deletions. -/
lemma mem_deleteEvents (env : Env) (processed : List Str) :
    ∀ e ∈ deleteEvents env processed, ∃ p, e = Ev.del p := by
  intro e he
  simp only [deleteEvents, List.mem_append, List.mem_flatMap] at he
  rcases he with ⟨f, _, he⟩ | ⟨p, _, he⟩
  · split at he
    · simp at he
      exact ⟨f, he⟩
    · simp at he
  · split at he
    · simp only [List.mem_cons] at he
      rcases he with rfl | he
      · exact ⟨_, rfl⟩
      · split at he
        · simp at he
          exact ⟨_, he⟩
        · simp at he
    · simp at he

/-- Events of the CLEANUP phase are temp deletions. -/
lemma mem_cleanupEvents (tempMade : Bool) (xs : List Str) :
    ∀ e ∈ cleanupEvents tempMade xs,
    (∃ p, e = Ev.tempDel p) ∨ e = Ev.tempRmdir := by
  intro e he
  simp only [cleanupEvents, List.mem_append, List.mem_map] at he
  rcases he with ⟨p, _, rfl⟩ | he
  · exact Or.inl ⟨p, rfl⟩
  · split at he
    · simp at he
      subst he
      exact Or.inr rfl
    · simp at he

end Musictl

namespace Musictl

lemma extractPairs_proj (env : Env) (ps : List CuePair) :
    copiesOf (extractPairs env ps).2 = [] ∧
    logAppendsOf (extractPairs env ps).2 = [] ∧
    logWarnCount (extractPairs env ps).2 = 0 ∧
    deletionsOf (extractPairs env ps).2 = [] := by
  refine ⟨copiesOf_eq_nil (fun s t hmem => ?_),
    logAppendsOf_eq_nil (fun l hmem => ?_),
    logWarnCount_eq_zero (fun hmem => ?_),
    deletionsOf_eq_nil (fun p hmem => ?_)⟩ <;>
    rcases mem_extractPairs_events env ps _ hmem with h | ⟨o, k, h⟩ | ⟨a, d, h⟩ <;>
      simp at h

lemma copyLoop_proj (env : Env) (tpath : Str) (extracted : List Str)
    (fs tfs : List Str) :
    renamesOf (copyLoop env tpath extracted fs tfs).2.2 = [] ∧
    ffmpegRunsOf (copyLoop env tpath extracted fs tfs).2.2 = [] ∧
    deletionsOf (copyLoop env tpath extracted fs tfs).2.2 = [] := by
  refine ⟨renamesOf_eq_nil (fun s d hmem => ?_),
    ffmpegRunsOf_eq_nil (fun o k hmem => ?_),
    deletionsOf_eq_nil (fun p hmem => ?_)⟩ <;>
    rcases mem_copyLoop_events env tpath extracted fs tfs _ hmem with
      ⟨s2, t2, h⟩ | ⟨l, h⟩ | h <;> simp at h

lemma deleteEvents_proj (env : Env) (processed : List Str) :
    copiesOf (deleteEvents env processed) = [] ∧
    logAppendsOf (deleteEvents env processed) = [] ∧
    logWarnCount (deleteEvents env processed) = 0 ∧
    renamesOf (deleteEvents env processed) = [] ∧
    ffmpegRunsOf (deleteEvents env processed) = [] := by
  refine ⟨copiesOf_eq_nil (fun s t hmem => ?_),
    logAppendsOf_eq_nil (fun l hmem => ?_),
    logWarnCount_eq_zero (fun hmem => ?_),
    renamesOf_eq_nil (fun s d hmem => ?_),
    ffmpegRunsOf_eq_nil (fun o k hmem => ?_)⟩ <;>
    obtain ⟨p, h⟩ := mem_deleteEvents env processed _ hmem <;> simp at h

lemma cleanupEvents_proj (b : Bool) (xs : List Str) :
    copiesOf (cleanupEvents b xs) = [] ∧
    logAppendsOf (cleanupEvents b xs) = [] ∧
    logWarnCount (cleanupEvents b xs) = 0 ∧
    deletionsOf (cleanupEvents b xs) = [] ∧
    renamesOf (cleanupEvents b xs) = [] ∧
    ffmpegRunsOf (cleanupEvents b xs) = [] := by
  refine ⟨copiesOf_eq_nil (fun s t hmem => ?_),
    logAppendsOf_eq_nil (fun l hmem => ?_),
    logWarnCount_eq_zero (fun hmem => ?_),
    deletionsOf_eq_nil (fun p hmem => ?_),
    renamesOf_eq_nil (fun s d hmem => ?_),
    ffmpegRunsOf_eq_nil (fun o k hmem => ?_)⟩ <;>
    rcases mem_cleanupEvents b xs _ hmem with ⟨p2, h⟩ | h <;> simp at h

/-- Log behaviour of the COPY loop: with no log-file accessor every
successful copy yields exactly one warning and no appended line; with an
accessor present, exactly one formatted line per successful copy and no
warning. -/
lemma copyLoop_log_spec (env : Env) (tpath : Str) (extracted : List Str) :
    ∀ (fs tfs : List Str),
    (env.importLogFile = none →
      logAppendsOf (copyLoop env tpath extracted fs tfs).2.2 = [] ∧
      logWarnCount (copyLoop env tpath extracted fs tfs).2.2 =
        (copiesOf (copyLoop env tpath extracted fs tfs).2.2).length) ∧
    (∀ lf, env.importLogFile = some lf →
      logAppendsOf (copyLoop env tpath extracted fs tfs).2.2 =
        (copiesOf (copyLoop env tpath extracted fs tfs).2.2).map
          (fun st => mkLogLine env.timestamp st.1 st.2) ∧
      logWarnCount (copyLoop env tpath extracted fs tfs).2.2 = 0) := by
  intro fs
  induction fs with
  | nil =>
    intro tfs
    exact ⟨fun _ => ⟨rfl, rfl⟩, fun lf _ => ⟨rfl, rfl⟩⟩
  | cons f fs ih =>
    intro tfs
    constructor
    · intro hnone
      simp only [copyLoop]
      split
      · exact (ih tfs).1 hnone
      · split
        · have h := (ih (newFilename env extracted f :: tfs)).1 hnone
          rw [log_import.eq_def, hnone]
          simp only [logAppendsOf, copiesOf, logWarnCount, List.filterMap_append,
            List.filterMap_cons, List.countP_append, List.countP_cons,
            List.length_cons, List.length_append] at h ⊢
          simp [h.1, h.2]
        · exact (ih tfs).1 hnone
    · intro lf hsome
      simp only [copyLoop]
      split
      · exact (ih tfs).2 lf hsome
      · split
        · have h := (ih (newFilename env extracted f :: tfs)).2 lf hsome
          rw [log_import.eq_def, hsome]
          simp only [logAppendsOf, copiesOf, logWarnCount, List.filterMap_append,
            List.filterMap_cons, List.countP_append, List.countP_cons,
            List.length_cons, List.length_append] at h ⊢
          simp [h.1, h.2]
        · exact (ih tfs).2 lf hsome

end Musictl

namespace Musictl

lemma copiesOf_append (a b : List Ev) :
    copiesOf (a ++ b) = copiesOf a ++ copiesOf b := by
  simp [copiesOf]

lemma logAppendsOf_append (a b : List Ev) :
    logAppendsOf (a ++ b) = logAppendsOf a ++ logAppendsOf b := by
  simp [logAppendsOf]

lemma logWarnCount_append (a b : List Ev) :
    logWarnCount (a ++ b) = logWarnCount a + logWarnCount b := by
  simp [logWarnCount, List.countP_append]

lemma deletionsOf_append (a b : List Ev) :
    deletionsOf (a ++ b) = deletionsOf a ++ deletionsOf b := by
  simp [deletionsOf]

lemma renamesOf_append (a b : List Ev) :
    renamesOf (a ++ b) = renamesOf a ++ renamesOf b := by
  simp [renamesOf]

lemma ffmpegRunsOf_append (a b : List Ev) :
    ffmpegRunsOf (a ++ b) = ffmpegRunsOf a ++ ffmpegRunsOf b := by
  simp [ffmpegRunsOf]

lemma copiesOf_mkdir_cons (p : Str) (evs : List Ev) :
    copiesOf (Ev.mkdir p :: evs) = copiesOf evs := by
  simp [copiesOf]

lemma logAppendsOf_mkdir_cons (p : Str) (evs : List Ev) :
    logAppendsOf (Ev.mkdir p :: evs) = logAppendsOf evs := by
  simp [logAppendsOf]

lemma logWarnCount_mkdir_cons (p : Str) (evs : List Ev) :
    logWarnCount (Ev.mkdir p :: evs) = logWarnCount evs := by
  simp [logWarnCount]

lemma deletionsOf_mkdir_cons (p : Str) (evs : List Ev) :
    deletionsOf (Ev.mkdir p :: evs) = deletionsOf evs := by
  simp [deletionsOf]

lemma renamesOf_mkdir_cons (p : Str) (evs : List Ev) :
    renamesOf (Ev.mkdir p :: evs) = renamesOf evs := by
  simp [renamesOf]

lemma ffmpegRunsOf_mkdir_cons (p : Str) (evs : List Ev) :
    ffmpegRunsOf (Ev.mkdir p :: evs) = ffmpegRunsOf evs := by
  simp [ffmpegRunsOf]

/-- Claim C1: against the repository's configuration (which exposes no
`get_import_log_file` accessor) the pipeline never appends an
ImportLogEntry — instead every successful copy produces exactly one
non-fatal warning, across all runs.  The non-fatality half of the claim
holds (copies proceed regardless), but the "exactly one appended log line
per successful copy" half is violated by the code. -/
lemma copiesOf_nil : copiesOf [] = [] := rfl

lemma logAppendsOf_nil : logAppendsOf [] = [] := rfl

lemma logWarnCount_nil : logWarnCount [] = 0 := rfl

lemma deletionsOf_nil : deletionsOf [] = [] := rfl

lemma renamesOf_nil : renamesOf [] = [] := rfl

lemma ffmpegRunsOf_nil : ffmpegRunsOf [] = [] := rfl

lemma cleanupEvents_false_nil : cleanupEvents false [] = [] := rfl

/-- Claim C1: against the repository's configuration (which exposes no
`get_import_log_file` accessor) the pipeline never appends an
ImportLogEntry — instead every successful copy produces exactly one
non-fatal warning, across all runs.  The non-fatality half of the claim
holds (copies proceed regardless), but the "exactly one appended log line
per successful copy" half is violated by the code. -/
theorem c1_import_log_never_written (env : Env)
    (hcfg : env.importLogFile = configGetImportLogFile) :
    logAppendsOf (import_tracks env).events = [] ∧
    logWarnCount (import_tracks env).events =
      (copiesOf (import_tracks env).events).length := by
  have hnone : env.importLogFile = none := hcfg
  by_cases hsrc : env.sourceExists = true
  · rcases hts : chSplitChar '/' env.targetSpec with
      _ | ⟨root, _ | ⟨subdir, _ | ⟨y, rest⟩⟩⟩
    · simp [import_tracks, hsrc, hts, logAppendsOf_nil, logWarnCount_nil,
        copiesOf_nil]
    · simp [import_tracks, hsrc, hts, logAppendsOf_nil, logWarnCount_nil,
        copiesOf_nil]
    · by_cases hroot : root ∈ env.musicDirs
      · have hlog : ∀ (ex fs : List Str),
            logAppendsOf (copyLoop env (targetPath env root subdir) ex fs
              env.targetExisting).2.2 = [] ∧
            logWarnCount (copyLoop env (targetPath env root subdir) ex fs
              env.targetExisting).2.2 =
              (copiesOf (copyLoop env (targetPath env root subdir) ex fs
                env.targetExisting).2.2).length :=
          fun ex fs => (copyLoop_log_spec env (targetPath env root subdir)
            ex fs env.targetExisting).1 hnone
        simp only [import_tracks, hsrc, hts, hroot, Bool.not_eq_true,
          if_true, not_true_eq_false, if_false, ite_true, ite_false]
        rcases hsc : splitConfirmed env with _ | _
        · simp only [Bool.false_eq_true, if_false, ite_false]
          split
          · simp [logAppendsOf_mkdir_cons, logAppendsOf_append,
              logWarnCount_mkdir_cons, logWarnCount_append,
              copiesOf_mkdir_cons, copiesOf_append, cleanupEvents_false_nil,
              logAppendsOf_nil, logWarnCount_nil, copiesOf_nil]
          · split <;>
              simp [logAppendsOf_mkdir_cons, logAppendsOf_append,
                logWarnCount_mkdir_cons, logWarnCount_append,
                copiesOf_mkdir_cons, copiesOf_append, deleteEvents_proj,
                cleanupEvents_false_nil, logAppendsOf_nil, logWarnCount_nil,
                copiesOf_nil, (hlog _ _).1, (hlog _ _).2]
        · simp only [if_true, ite_true, eq_self_iff_true]
          split
          · simp [logAppendsOf_mkdir_cons, logAppendsOf_append,
              logWarnCount_mkdir_cons, logWarnCount_append,
              copiesOf_mkdir_cons, copiesOf_append,
              extractPairs_proj, cleanupEvents_proj]
          · split <;>
              simp [logAppendsOf_mkdir_cons, logAppendsOf_append,
                logWarnCount_mkdir_cons, logWarnCount_append,
                copiesOf_mkdir_cons, copiesOf_append,
                extractPairs_proj, cleanupEvents_proj, deleteEvents_proj,
                logAppendsOf_nil, logWarnCount_nil, copiesOf_nil,
                (hlog _ _).1, (hlog _ _).2]
      · simp [import_tracks, hsrc, hts, hroot, logAppendsOf_nil,
          logWarnCount_nil, copiesOf_nil]
    · simp [import_tracks, hsrc, hts, logAppendsOf_nil, logWarnCount_nil,
        copiesOf_nil]
  · have hf : env.sourceExists = false := by
      revert hsrc; cases env.sourceExists <;> simp
    simp [import_tracks, hf, logAppendsOf_nil, logWarnCount_nil, copiesOf_nil]

end Musictl

namespace Musictl

/-- A concrete baseline environment for witnesses: one regular file, no
CUE pairs, both prompts declined, repository configuration (no import-log
accessor). -/
def baseEnv : Env where
  sourceExists := true
  targetSpec := str "collection/indie"
  musicDirs := [str "collection"]
  basePath := str "/base"
  yearMonth := str "2026-10"
  timestamp := str "2026-10-12 00:00:00"
  cuePairs := []
  scanFiles := [str "/src/b.mp3"]
  resolveTags := fun _ => (str "A", str "B", str "01", str "T")
  splitAnswer := str "n"
  deleteAnswer := str "n"
  ffmpegAvailable := true
  ffmpegOk := fun _ => true
  targetExisting := []
  copyOk := fun _ _ => true
  delOk := fun _ => true
  importLogFile := none

/-- Witness for `c1_import_log_never_written` at the baseline run (which
performs one successful copy). -/
theorem c1_import_log_never_written_witness :
    logAppendsOf (import_tracks baseEnv).events = [] ∧
    logWarnCount (import_tracks baseEnv).events =
      (copiesOf (import_tracks baseEnv).events).length :=
  c1_import_log_never_written baseEnv rfl

/-- Claim C10: once validation passes (source exists, target spec splits
into exactly root/subdir, root is configured), the very first filesystem
effect of the run is creating `{base}/{root}/{subdir}/{year-month}` — and
a run that then finds no CUE pairs and no audio files still performs that
`mkdir` and nothing else, ending as nothing-to-import. -/
theorem c10_target_dir_created_before_discovery (env : Env)
    (root subdir : Str)
    (hsrc : env.sourceExists = true)
    (htgt : chSplitChar '/' env.targetSpec = [root, subdir])
    (hroot : root ∈ env.musicDirs) :
    (import_tracks env).events.head? =
      some (Ev.mkdir (targetPath env root subdir)) ∧
    (env.cuePairs = [] → env.scanFiles = [] →
      (import_tracks env).status = RunStatus.nothingToImport ∧
      (import_tracks env).events =
        [Ev.mkdir (targetPath env root subdir)]) := by
  constructor
  · rcases hsc : splitConfirmed env with _ | _
    · simp only [import_tracks, hsrc, htgt, hroot, hsc, if_true,
        Bool.false_eq_true, not_true_eq_false, if_false, ite_true, ite_false]
      split <;> rfl
    · simp only [import_tracks, hsrc, htgt, hroot, hsc, if_true,
        eq_self_iff_true, not_true_eq_false, if_false, ite_true, ite_false]
      split <;> rfl
  · intro h1 h2
    simp [import_tracks, hsrc, htgt, hroot, h1, h2, splitConfirmed,
      cleanupEvents]

/-- Witness for `c10_target_dir_created_before_discovery` on an
empty-source run. -/
theorem c10_target_dir_created_before_discovery_witness :
    (import_tracks { baseEnv with scanFiles := [] }).status =
      RunStatus.nothingToImport ∧
    (import_tracks { baseEnv with scanFiles := [] }).events =
      [Ev.mkdir (targetPath { baseEnv with scanFiles := [] }
        (str "collection") (str "indie"))] := by
  have h := c10_target_dir_created_before_discovery
    { baseEnv with scanFiles := [] } (str "collection") (str "indie")
    rfl (by decide) (by decide)
  exact h.2 rfl rfl

lemma copiesOf_copy_cons (s t : Str) (evs : List Ev) :
    copiesOf (Ev.copy s t :: evs) = (s, t) :: copiesOf evs := by
  simp [copiesOf]

lemma copiesOf_log_import (lf : Option Str) (ts s t : Str) :
    copiesOf (log_import lf ts s t) = [] := by
  cases lf <;> rfl

/-- When no resolved name collides with the target directory or another
staged file and every copy succeeds, the COPY loop copies exactly the
staged files, in order. -/
lemma copyLoop_all_copied (env : Env) (tpath : Str) (extracted : List Str) :
    ∀ (fs tfs : List Str),
    (fs.map (newFilename env extracted)).Nodup →
    (∀ f ∈ fs, newFilename env extracted f ∉ tfs) →
    (∀ f ∈ fs, env.copyOk f
      (tpath ++ str "/" ++ newFilename env extracted f) = true) →
    (copiesOf (copyLoop env tpath extracted fs tfs).2.2).map Prod.fst = fs := by
  intro fs
  induction fs with
  | nil => intro tfs _ _ _; rfl
  | cons f fs ih =>
    intro tfs hnodup hfresh hcopy
    have hmem : newFilename env extracted f ∉ tfs :=
      hfresh f (List.mem_cons_self _ _)
    have hok := hcopy f (List.mem_cons_self _ _)
    have hcons : (∀ x ∈ fs, ¬newFilename env extracted x =
        newFilename env extracted f) ∧
        (fs.map (newFilename env extracted)).Nodup := by simpa using hnodup
    obtain ⟨hhead, htail⟩ := hcons
    have hrest := ih (newFilename env extracted f :: tfs) htail
      (fun g hg => by
        simp only [List.mem_cons]
        rintro (he | he)
        · exact hhead g hg he
        · exact hfresh g (List.mem_cons_of_mem _ hg) he)
      (fun g hg => hcopy g (List.mem_cons_of_mem _ hg))
    simp only [copyLoop]
    rw [if_neg hmem, if_pos hok]
    simp [copiesOf_append, copiesOf_copy_cons, copiesOf_log_import, hrest]

end Musictl

namespace Musictl

/-- A CUE text with two tracks, used for claim C3: track 1 "One", track 2
"Two". -/
def cueC3 : Str :=
  str "PERFORMER \"P\"\nTITLE \"Al\"\nTRACK 01 AUDIO\nTITLE \"One\"\nINDEX 01 00:00:00\nTRACK 02 AUDIO\nTITLE \"Two\"\nINDEX 01 01:00:00"

/-- The CUE pair for claim C3. -/
def pairC3 : CuePair := ⟨str "/src/x.cue", str "/src/x.flac", cueC3⟩

/-- Environment for claim C3: split confirmed, ffmpeg available, and the
transcoder fails exactly on track 1's output. -/
def envC3 : Env :=
  { baseEnv with
    cuePairs := [pairC3]
    scanFiles := []
    splitAnswer := str "y"
    ffmpegOk := fun out => decide (out ≠ str "/tmp/extract/01 - One.flac") }

/-- Claim C3 (code bug): when track 1's extraction fails and track 2's
succeeds, the splitter returns only track 2's output, but the rename loop
pairs it positionally with `tracks[0]` — so the file extracted from track
2 (`02 - Two.flac`) is renamed with track *1*'s performer, number and
title (`P - Al - 01 - One.flac`), not with the fields of the track that
produced it. -/
theorem c3_rename_misaligned_on_extraction_failure :
    ffmpegRunsOf (processPair envC3 pairC3).2 =
      [(str "/tmp/extract/01 - One.flac", false),
       (str "/tmp/extract/02 - Two.flac", true)] ∧
    renamesOf (processPair envC3 pairC3).2 =
      [(str "/tmp/extract/02 - Two.flac",
        str "/tmp/extract/P - Al - 01 - One.flac")] := by decide

/-- Environment for claim C4's counterexample: one CUE pair, one unrelated
audio file, split prompt declined, delete prompt confirmed. -/
def envC4 : Env :=
  { baseEnv with
    cuePairs := [⟨str "/src/a.cue", str "/src/a.flac",
      str "TRACK 01 AUDIO\nINDEX 01 00:00:00"⟩]
    scanFiles := [str "/src/b.mp3", str "/src/a.flac"]
    splitAnswer := str "n"
    deleteAnswer := str "y" }

/-- Claim C4, counterexample: declining the split prompt does *not*
guarantee the CUE pair's files survive the run — the delete prompt is
still posed (its guard includes `cue_pairs`), and confirming it deletes
both the CUE sheet and the companion audio even though nothing was
extracted from them. -/
theorem c4_counterexample :
    yesAnswer envC4.splitAnswer = false ∧
    str "/src/a.cue" ∈ deletionsOf (import_tracks envC4).events ∧
    str "/src/a.flac" ∈ deletionsOf (import_tracks envC4).events := by decide

/-- Claim C4 as amended: if the operator declines the split prompt *and
does not confirm the source-deletion prompt*, the run performs zero
extractions and zero renames, deletes nothing (so the CUE pair's two
files are untouched), and still copies every unrelated plain audio file
found alongside (given fresh, pairwise-distinct resolved names and
succeeding copies). -/
theorem c4_decline_split_imports_rest (env : Env) (root subdir : Str)
    (hsrc : env.sourceExists = true)
    (htgt : chSplitChar '/' env.targetSpec = [root, subdir])
    (hroot : root ∈ env.musicDirs)
    (hsplitNo : yesAnswer env.splitAnswer = false)
    (hdelNo : yesAnswer env.deleteAnswer = false)
    (hnodup : ((env.scanFiles.filter (fun f =>
        decide (f ∉ env.cuePairs.map CuePair.audioName))).map
        (newFilename env [])).Nodup)
    (hfresh : ∀ f ∈ env.scanFiles.filter (fun f =>
        decide (f ∉ env.cuePairs.map CuePair.audioName)),
        newFilename env [] f ∉ env.targetExisting)
    (hcopy : ∀ f ∈ env.scanFiles.filter (fun f =>
        decide (f ∉ env.cuePairs.map CuePair.audioName)),
        env.copyOk f (targetPath env root subdir ++ str "/" ++
          newFilename env [] f) = true) :
    renamesOf (import_tracks env).events = [] ∧
    ffmpegRunsOf (import_tracks env).events = [] ∧
    deletionsOf (import_tracks env).events = [] ∧
    (copiesOf (import_tracks env).events).map Prod.fst =
      env.scanFiles.filter (fun f =>
        decide (f ∉ env.cuePairs.map CuePair.audioName)) := by
  have hsc : splitConfirmed env = false := by
    simp [splitConfirmed, hsplitNo]
  simp only [import_tracks, hsrc, htgt, hroot, if_true, not_true_eq_false,
    if_false, ite_true, ite_false, hsc, Bool.false_eq_true]
  split
  case isTrue hAll =>
    have hreg : env.scanFiles.filter (fun f =>
        decide (f ∉ env.cuePairs.map CuePair.audioName)) = [] := by
      simpa using hAll
    simp [renamesOf_mkdir_cons, ffmpegRunsOf_mkdir_cons,
      deletionsOf_mkdir_cons, copiesOf_mkdir_cons, renamesOf_append,
      ffmpegRunsOf_append, deletionsOf_append, copiesOf_append,
      cleanupEvents_false_nil, renamesOf_nil, ffmpegRunsOf_nil,
      deletionsOf_nil, copiesOf_nil, hreg]
    simpa using hreg
  case isFalse hAll =>
    rw [hdelNo]
    simp only [Bool.false_eq_true, and_false, if_false, ite_false]
    refine ⟨?_, ?_, ?_, ?_⟩
    · simp [renamesOf_mkdir_cons, renamesOf_append, renamesOf_nil,
        cleanupEvents_false_nil, copyLoop_proj]
    · simp [ffmpegRunsOf_mkdir_cons, ffmpegRunsOf_append, ffmpegRunsOf_nil,
        cleanupEvents_false_nil, copyLoop_proj]
    · simp [deletionsOf_mkdir_cons, deletionsOf_append, deletionsOf_nil,
        cleanupEvents_false_nil, copyLoop_proj]
    · simp only [copiesOf_mkdir_cons, copiesOf_append, copiesOf_nil,
        cleanupEvents_false_nil, List.append_nil, List.nil_append]
      exact copyLoop_all_copied env (targetPath env root subdir) []
        (env.scanFiles.filter (fun f =>
          decide (f ∉ env.cuePairs.map CuePair.audioName)))
        env.targetExisting hnodup hfresh hcopy

/-- Environment for `c4_decline_split_imports_rest`'s witness: like the
counterexample but with the deletion prompt declined as well. -/
def envC4w : Env :=
  { baseEnv with
    cuePairs := [⟨str "/src/a.cue", str "/src/a.flac",
      str "TRACK 01 AUDIO\nINDEX 01 00:00:00"⟩]
    scanFiles := [str "/src/b.mp3", str "/src/a.flac"] }

/-- Witness for `c4_decline_split_imports_rest` at a concrete run with one
CUE pair and one unrelated file. -/
theorem c4_decline_split_imports_rest_witness :
    renamesOf (import_tracks envC4w).events = [] ∧
    ffmpegRunsOf (import_tracks envC4w).events = [] ∧
    deletionsOf (import_tracks envC4w).events = [] ∧
    (copiesOf (import_tracks envC4w).events).map Prod.fst =
      envC4w.scanFiles.filter (fun f =>
        decide (f ∉ envC4w.cuePairs.map CuePair.audioName)) :=
  c4_decline_split_imports_rest envC4w (str "collection") (str "indie")
    rfl (by decide) (by decide) (by decide) (by decide) (by decide)
    (by decide) (by decide)

end Musictl
